import Mathlib

/-!
Shallow embedding of the feathers-pinia store-support modules
(`src/stores/event-locks.ts`): the service event-lock registry
(`useServiceEventLocks` with `toggleEventLock` / `clearEventLock`),
the queue-promise registry (`makeGetterName`, `makeState`, `resetState`,
`useQueuePromise`), and the pending-query counter (`useCounter`).

Identities (`Id` in the source, a string or number) are modelled as `Nat`.
The reactive nested record `eventLocks : { created: {}, patched: {}, ... }`
is modelled as a list of present `(eventKind, identity)` pairs; `setTimeout`
callbacks are modelled as an explicit queue of pending timers carrying the
exact arguments the source closure captures.
-/

inductive EventName where
  | created
  | updated
  | patched
  | removed
deriving DecidableEq, Repr

/-- JS string of each event kind, as used by `makeGetterName`. -/
def eventNameStr : EventName → String
  | .created => "created"
  | .updated => "updated"
  | .patched => "patched"
  | .removed => "removed"

/-- Embedding of `makeGetterName` from the source:
`is + event.slice(0, 1).toUpperCase() + event.slice(1, event.length - 1) + Pending`.
`slice(0, 1).toUpperCase()` is the upper-cased first character and
`slice(1, event.length - 1)` keeps characters at indices `1 .. length - 2`. -/
def makeGetterName (event : EventName) : String :=
  let s := (eventNameStr event).toList
  "is" ++ String.mk ((s.take 1).map Char.toUpper)
       ++ String.mk ((s.drop 1).take (s.length - 1 - 1))
       ++ "Pending"

/-- A pending `setTimeout` scheduled by `toggleEventLock`: it will run
`clearEventLock(data, event)` with the captured full argument list. -/
structure LockTimer where
  fire : Nat
  data : List Nat
  event : EventName
deriving DecidableEq, Repr

/-- State owned by one `useServiceEventLocks()` instance: the reactive
`eventLocks` table, the queue of scheduled auto-clear timers, and the
current time (for the 250-unit timeout). -/
structure LockState where
  eventLocks : List (EventName × Nat)
  timers : List LockTimer
  now : Nat
deriving DecidableEq, Repr

/-- Truthiness of `eventLocks[event][id]`: the pair is present in the table. -/
def hasLock (lks : List (EventName × Nat)) (event : EventName) (id : Nat) : Bool :=
  lks.any (fun p => p.1 == event && p.2 == id)

/-- One `delete eventLocks[event][id]` statement: the key is removed. -/
def deleteLock (event : EventName) (id : Nat) (lks : List (EventName × Nat)) :
    List (EventName × Nat) :=
  lks.filter (fun p => !(p.1 == event && p.2 == id))

/-- The `ids.forEach((id) => { delete eventLocks[event][id] })` loop body of
`clearEventLock`, acting on the lock table. -/
def clearLocks (data : List Nat) (event : EventName) (lks : List (EventName × Nat)) :
    List (EventName × Nat) :=
  data.foldl (fun l i => deleteLock event i l) lks

/-- Embedding of `clearEventLock(data, event)`. -/
def clearEventLock (data : List Nat) (event : EventName) (st : LockState) : LockState :=
  { st with eventLocks := clearLocks data event st.eventLocks }

/-- Loop body of `toggleEventLock`'s `ids.forEach`: the closure captures the
whole `data` argument, so both the immediate clear and the scheduled clear act
on every identity of the original list, not just on `id`. -/
def toggleStep (data : List Nat) (event : EventName) (s : LockState) (id : Nat) : LockState :=
  if hasLock s.eventLocks event id then
    clearEventLock data event s
  else
    { s with
      eventLocks := (event, id) :: s.eventLocks
      timers := s.timers ++ [⟨s.now + 250, data, event⟩] }

/-- Embedding of `toggleEventLock(data, event)`: for each id in order, if
`eventLocks[event][id]` is truthy the code calls `clearEventLock(data, event)`
with the WHOLE argument list; otherwise it sets `eventLocks[event][id] = true`
and schedules `clearEventLock(data, event)` (again the whole list) 250 time
units later. -/
def toggleEventLock (data : List Nat) (event : EventName) (st : LockState) : LockState :=
  data.foldl (toggleStep data event) st

/-- Modelled from the spec: the per-identity reading of the spec sentence for
`toggleLock` — "for each identity, if a lock is currently held for that
(eventKind, identity) pair, clear it immediately; otherwise, set the lock and
schedule an automatic clear after a fixed delay (250 time units)". Here both
the immediate clear and the scheduled clear act on exactly the pair being
processed. Used only to compare with `toggleEventLock` as embedded from the
source. -/
def toggleEventLockSpec (data : List Nat) (event : EventName) (st : LockState) : LockState :=
  data.foldl
    (fun s id =>
      if hasLock s.eventLocks event id then
        { s with eventLocks := deleteLock event id s.eventLocks }
      else
        { s with
          eventLocks := (event, id) :: s.eventLocks
          timers := s.timers ++ [⟨s.now + 250, [id], event⟩] })
    st

/-- Observation of the lock table at time `t`: every scheduled timer whose
deadline has passed has run its `clearEventLock(data, event)` callback. -/
def observeAt (t : Nat) (st : LockState) : LockState :=
  { eventLocks :=
      st.timers.foldl
        (fun lks tm => if tm.fire ≤ t then clearLocks tm.data tm.event lks else lks)
        st.eventLocks
    timers := st.timers.filter (fun tm => !(tm.fire ≤ t))
    now := t }

/-- Embedding of `useCounter`'s `add`: `count.value = count.value + 1`. -/
def counterAdd (c : Int) : Int := c + 1

/-- Embedding of `useCounter`'s `sub`: `count.value = count.value === 0 ? 0 : count.value - 1`. -/
def counterSub (c : Int) : Int := if c = 0 then 0 else c - 1

inductive CounterOp where
  | add
  | sub
deriving DecidableEq, Repr

/-- Run a sequence of `add` / `sub` calls on a counter starting at 0
(`const count = ref(0)`). -/
def runCounter (ops : List CounterOp) : Int :=
  ops.foldl (fun c op => match op with | .add => counterAdd c | .sub => counterSub c) 0

section LockLemmas

theorem hasLock_iff (lks : List (EventName × Nat)) (event : EventName) (id : Nat) :
    hasLock lks event id = true ↔ (event, id) ∈ lks := by
  constructor
  · intro h
    rcases List.any_eq_true.mp h with ⟨p, hp, hpe⟩
    have hpe2 : p.1 = event ∧ p.2 = id := by
      simpa using hpe
    obtain ⟨e1, e2⟩ := hpe2
    have : p = (event, id) := by
      cases p
      simp only at e1 e2
      rw [e1, e2]
    rwa [this] at hp
  · intro h
    exact List.any_eq_true.mpr ⟨(event, id), h, by simp⟩

theorem hasLock_eq_false_iff (lks : List (EventName × Nat)) (event : EventName) (id : Nat) :
    hasLock lks event id = false ↔ (event, id) ∉ lks := by
  rw [← hasLock_iff]
  cases hasLock lks event id <;> simp

theorem mem_clearLocks (data : List Nat) (event e2 : EventName) (id : Nat)
    (lks : List (EventName × Nat)) :
    (e2, id) ∈ clearLocks data event lks
      ↔ ((e2, id) ∈ lks ∧ ¬(e2 = event ∧ id ∈ data)) := by
  induction data generalizing lks with
  | nil => simp [clearLocks]
  | cons i rest ih =>
    have step : clearLocks (i :: rest) event lks
        = clearLocks rest event (deleteLock event i lks) := by
      simp [clearLocks]
    rw [step, ih, deleteLock, List.mem_filter]
    constructor
    · rintro ⟨⟨hm, hd⟩, hni⟩
      refine ⟨hm, ?_⟩
      rintro ⟨he, hid⟩
      rcases List.mem_cons.mp hid with h | h
      · subst he h
        simp at hd
      · exact hni ⟨he, h⟩
    · rintro ⟨hm, hni⟩
      refine ⟨⟨hm, ?_⟩, ?_⟩
      · simp only [Bool.not_eq_true']
        by_contra hb
        have hb2 : e2 = event ∧ id = i := by
          have hb3 : ((e2 == event && id == i) : Bool) = true := by
            cases hbe : ((e2 == event && id == i) : Bool)
            · exact absurd hbe hb
            · rfl
          simpa using hb3
        exact hni ⟨hb2.1, by rw [hb2.2]; exact List.mem_cons_self _ _⟩
      · rintro ⟨he, hid⟩
        exact hni ⟨he, List.mem_cons_of_mem _ hid⟩

theorem hasLock_cons (p : EventName × Nat) (lks : List (EventName × Nat))
    (event : EventName) (id : Nat) :
    hasLock (p :: lks) event id = ((p.1 == event && p.2 == id) || hasLock lks event id) := by
  simp [hasLock]

end LockLemmas


theorem clearLocks_eq_filter (event : EventName) :
    ∀ (data : List Nat) (lks : List (EventName × Nat)),
      clearLocks data event lks
        = lks.filter (fun p => !(p.1 == event && data.contains p.2)) := by
  intro data
  induction data with
  | nil =>
    intro lks
    have : ∀ p : EventName × Nat, (!(p.1 == event && ([] : List Nat).contains p.2)) = true := by
      intro p
      simp
    simp [clearLocks, List.filter_eq_self.mpr (fun p _ => this p)]
  | cons i rest ih =>
    intro lks
    have step : clearLocks (i :: rest) event lks
        = clearLocks rest event (deleteLock event i lks) := by
      simp [clearLocks]
    rw [step, ih, deleteLock, List.filter_filter]
    congr 1
    funext p
    rw [List.contains_cons]
    cases h1 : (p.1 == event) <;> cases h2 : (p.2 == i) <;>
      cases h3 : rest.contains p.2 <;> rfl

theorem clearLocks_idem (data : List Nat) (event : EventName) (lks : List (EventName × Nat)) :
    clearLocks data event (clearLocks data event lks) = clearLocks data event lks := by
  rw [clearLocks_eq_filter, clearLocks_eq_filter, List.filter_filter]
  congr 1
  funext p
  cases h : (!(p.1 == event && data.contains p.2)) <;> rfl

theorem clearLocks_subset (data : List Nat) (event : EventName) (lks : List (EventName × Nat)) :
    clearLocks data event lks ⊆ lks := by
  rw [clearLocks_eq_filter]
  intro x hx
  exact (List.mem_filter.mp hx).1

theorem toggleFold_now (data : List Nat) (event : EventName) :
    ∀ (ids : List Nat) (st : LockState),
      (ids.foldl (toggleStep data event) st).now = st.now := by
  intro ids
  induction ids with
  | nil => intro st; rfl
  | cons i rest ih =>
    intro st
    rw [List.foldl_cons, ih]
    unfold toggleStep
    by_cases h : hasLock st.eventLocks event i = true
    · simp [h, clearEventLock]
    · simp [h]

theorem mem_toggleFold_of_not_target (data : List Nat) (event e2 : EventName)
    (j : Nat) (hnt : ¬(e2 = event ∧ j ∈ data)) :
    ∀ (ids : List Nat) (st : LockState), (∀ i ∈ ids, i ∈ data) →
      ((e2, j) ∈ (ids.foldl (toggleStep data event) st).eventLocks
        ↔ (e2, j) ∈ st.eventLocks) := by
  intro ids
  induction ids with
  | nil => intro st _; exact Iff.rfl
  | cons i rest ih =>
    intro st hsub
    rw [List.foldl_cons,
        ih _ (fun x hx => hsub x (List.mem_cons_of_mem _ hx))]
    unfold toggleStep
    by_cases h : hasLock st.eventLocks event i = true
    · simp only [h, if_true]
      simp [clearEventLock, mem_clearLocks, hnt]
    · simp only [h, if_false, Bool.false_eq_true]
      constructor
      · intro hm
        rcases List.mem_cons.mp hm with hEq | hm2
        · exfalso
          injection hEq with ha hb
          exact hnt ⟨ha, hb ▸ hsub i (List.mem_cons_self _ _)⟩
        · exact hm2
      · intro hm
        exact List.mem_cons_of_mem _ hm

theorem toggleFold_all_unlocked (data : List Nat) (event : EventName) :
    ∀ (ids : List Nat) (st : LockState), ids.Nodup →
      (∀ i ∈ ids, (event, i) ∉ st.eventLocks) →
      ids.foldl (toggleStep data event) st
        = ⟨(ids.map (fun i => (event, i))).reverse ++ st.eventLocks,
           st.timers ++ ids.map (fun _ => ⟨st.now + 250, data, event⟩),
           st.now⟩ := by
  intro ids
  induction ids with
  | nil =>
    intro st _ _
    simp
  | cons i rest ih =>
    intro st hnd hnl
    have hni : i ∉ rest := (List.nodup_cons.mp hnd).1
    have hstep : toggleStep data event st i
        = { st with eventLocks := (event, i) :: st.eventLocks,
                    timers := st.timers ++ [⟨st.now + 250, data, event⟩] } := by
      have hfalse : hasLock st.eventLocks event i = false :=
        (hasLock_eq_false_iff _ _ _).mpr (hnl i (List.mem_cons_self _ _))
      unfold toggleStep
      rw [hfalse]
      simp
    have hrest : ∀ j ∈ rest,
        (event, j) ∉ ((event, i) :: st.eventLocks : List (EventName × Nat)) := by
      intro j hj hmem
      rcases List.mem_cons.mp hmem with hEq | hm
      · injection hEq with _ hb
        exact hni (hb ▸ hj)
      · exact hnl j (List.mem_cons_of_mem _ hj) hm
    rw [List.foldl_cons, hstep, ih _ (List.nodup_cons.mp hnd).2 hrest]
    simp [List.append_assoc]

theorem foldl_timers_no_fire (t : Nat) :
    ∀ (tms : List LockTimer) (lks : List (EventName × Nat)),
      (∀ tm ∈ tms, ¬ tm.fire ≤ t) →
      tms.foldl (fun l tm => if tm.fire ≤ t then clearLocks tm.data tm.event l else l) lks
        = lks := by
  intro tms
  induction tms with
  | nil => intro lks _; rfl
  | cons tm rest ih =>
    intro lks hno
    rw [List.foldl_cons, if_neg (hno tm (List.mem_cons_self _ _))]
    exact ih lks (fun x hx => hno x (List.mem_cons_of_mem _ hx))

theorem foldl_timers_subset (t : Nat) :
    ∀ (tms : List LockTimer) (lks : List (EventName × Nat)),
      tms.foldl (fun l tm => if tm.fire ≤ t then clearLocks tm.data tm.event l else l) lks
        ⊆ lks := by
  intro tms
  induction tms with
  | nil => intro lks x hx; exact hx
  | cons tm rest ih =>
    intro lks x hx
    rw [List.foldl_cons] at hx
    have hx2 := ih (if tm.fire ≤ t then clearLocks tm.data tm.event lks else lks) hx
    by_cases h : tm.fire ≤ t
    · rw [if_pos h] at hx2
      exact clearLocks_subset _ _ _ hx2
    · rwa [if_neg h] at hx2

theorem toggle_single_locked (event : EventName) (id : Nat) (st : LockState)
    (h : hasLock st.eventLocks event id = true) :
    toggleEventLock [id] event st = clearEventLock [id] event st := by
  simp [toggleEventLock, toggleStep, h]

theorem toggle_single_unlocked (event : EventName) (id : Nat) (st : LockState)
    (h : hasLock st.eventLocks event id = false) :
    toggleEventLock [id] event st
      = { st with eventLocks := (event, id) :: st.eventLocks,
                  timers := st.timers ++ [⟨st.now + 250, [id], event⟩] } := by
  simp [toggleEventLock, toggleStep, h]

theorem hasLock_toggle_of_not_target (data : List Nat) (event e2 : EventName)
    (j : Nat) (st : LockState) (hnt : ¬(e2 = event ∧ j ∈ data)) :
    hasLock (toggleEventLock data event st).eventLocks e2 j
      = hasLock st.eventLocks e2 j := by
  have h := mem_toggleFold_of_not_target data event e2 j hnt data st (fun i hi => hi)
  exact Bool.coe_iff_coe.mp
    ((hasLock_iff _ _ _).trans (h.trans (hasLock_iff _ _ _).symm))

theorem hasLock_clearEventLock_of_mem (data : List Nat) (event : EventName)
    (id : Nat) (st : LockState) (hid : id ∈ data) :
    hasLock (clearEventLock data event st).eventLocks event id = false := by
  apply (hasLock_eq_false_iff _ _ _).mpr
  intro hmem
  rw [clearEventLock] at hmem
  exact ((mem_clearLocks _ _ _ _ _).mp hmem).2 ⟨rfl, hid⟩


/-- Claim C1 (counterexample): `toggleEventLock` does not act per identity.
With identities `[1, 2]` and a lock held only for `(created, 2)`, processing
identity 2 calls `clearEventLock` with the whole list, which also clears the
lock that identity 1's own branch had just set; the spec-worded per-pair
version `toggleEventLockSpec` keeps identity 1's lock. -/
theorem toggleEventLock_per_pair_counterexample :
    hasLock ((toggleEventLock [1, 2] .created
        ⟨[(.created, 2)], [], 0⟩).eventLocks) .created 1 = false
    ∧ hasLock ((toggleEventLockSpec [1, 2] .created
        ⟨[(.created, 2)], [], 0⟩).eventLocks) .created 1 = true
    ∧ (toggleEventLock [1, 2] .created ⟨[(.created, 2)], [], 0⟩).eventLocks
        ≠ (toggleEventLockSpec [1, 2] .created ⟨[(.created, 2)], [], 0⟩).eventLocks := by
  decide

/-- Claim C1 (amended): per identity, a held `(eventKind, identity)` lock makes
`toggleEventLock` call `clearEventLock` with the ENTIRE identity list, and an
absent lock makes it set exactly that pair and schedule a clear of the entire
list 250 time units later; for a single-identity call this coincides with the
claimed per-pair behaviour, and locks of pairs outside the processed list (or
under another event kind) are never affected. -/
theorem toggleEventLock_amended (event : EventName) (st : LockState) (id : Nat) :
    (hasLock st.eventLocks event id = true →
       toggleEventLock [id] event st = clearEventLock [id] event st) ∧
    (hasLock st.eventLocks event id = false →
       toggleEventLock [id] event st
         = { st with eventLocks := (event, id) :: st.eventLocks,
                     timers := st.timers ++ [⟨st.now + 250, [id], event⟩] }) ∧
    (∀ (data : List Nat) (e2 : EventName) (j : Nat), ¬(e2 = event ∧ j ∈ data) →
       hasLock (toggleEventLock data event st).eventLocks e2 j
         = hasLock st.eventLocks e2 j) ∧
    (∀ (rest : List Nat), hasLock st.eventLocks event id = true →
       toggleEventLock (id :: rest) event st
         = rest.foldl (toggleStep (id :: rest) event)
             (clearEventLock (id :: rest) event st)) := by
  refine ⟨toggle_single_locked event id st,
          toggle_single_unlocked event id st,
          fun data e2 j hnt => hasLock_toggle_of_not_target data event e2 j st hnt,
          fun rest h => ?_⟩
  simp [toggleEventLock, toggleStep, h]

/-- Claim C1 (witness for the amended theorem) at concrete inputs. -/
theorem toggleEventLock_amended_witness :
    toggleEventLock [1] .created ⟨[(.created, 1)], [], 0⟩
        = clearEventLock [1] .created ⟨[(.created, 1)], [], 0⟩
    ∧ toggleEventLock [5] .created ⟨[], [], 0⟩
        = ⟨[(.created, 5)], [⟨250, [5], .created⟩], 0⟩
    ∧ hasLock (toggleEventLock [2] .created ⟨[(.created, 1)], [], 0⟩).eventLocks
        .created 1 = true := by
  refine ⟨(toggleEventLock_amended .created ⟨[(.created, 1)], [], 0⟩ 1).1 (by decide),
          ?_, ?_⟩
  · rw [(toggleEventLock_amended .created ⟨[], [], 0⟩ 5).2.1 (by decide)]
    decide
  · rw [(toggleEventLock_amended .created ⟨[(.created, 1)], [], 0⟩ 2).2.2.1
        [2] .created 1 (by decide)]
    decide

/-- Claim C2: the derived pending-indicator names. For `created`, `updated`
and `removed` the code produces the claimed names, but for `patched` the
expression `event.slice(1, event.length - 1)` drops only the final `d`,
producing `isPatchePending` instead of the `isPatchPending` declared by the
source's own `QueuePromiseState` interface and documentation. -/
theorem makeGetterName_patched_bug :
    makeGetterName .created = "isCreatePending"
    ∧ makeGetterName .updated = "isUpdatePending"
    ∧ makeGetterName .removed = "isRemovePending"
    ∧ makeGetterName .patched = "isPatchePending"
    ∧ makeGetterName .patched ≠ "isPatchPending" := by
  decide

theorem runCounter_foldl_nonneg :
    ∀ (ops : List CounterOp) (c : Int), 0 ≤ c →
      0 ≤ ops.foldl
        (fun c op => match op with | .add => counterAdd c | .sub => counterSub c) c := by
  intro ops
  induction ops with
  | nil => intro c hc; exact hc
  | cons op rest ih =>
    intro c hc
    rw [List.foldl_cons]
    apply ih
    cases op
    · simp only [counterAdd]
      omega
    · simp only [counterSub]
      by_cases h : c = 0
      · rw [if_pos h]
      · rw [if_neg h]
        omega

/-- Claim C3: starting from 0, the counter never goes negative; `add` adds
exactly 1, `sub` subtracts exactly 1 when the count is positive and is a
no-op at 0 (two `sub` calls from 0 yield 0, not -2). -/
theorem useCounter_spec (ops : List CounterOp) :
    0 ≤ runCounter ops
    ∧ runCounter (ops ++ [.add]) = runCounter ops + 1
    ∧ (0 < runCounter ops → runCounter (ops ++ [.sub]) = runCounter ops - 1)
    ∧ (runCounter ops = 0 → runCounter (ops ++ [.sub]) = 0)
    ∧ runCounter [.sub, .sub] = 0 := by
  have hnn : 0 ≤ runCounter ops := runCounter_foldl_nonneg ops 0 le_rfl
  have happ : ∀ op : CounterOp, runCounter (ops ++ [op])
      = (match op with
         | .add => counterAdd (runCounter ops)
         | .sub => counterSub (runCounter ops)) := by
    intro op
    simp [runCounter, List.foldl_append]
  refine ⟨hnn, ?_, ?_, ?_, by decide⟩
  · rw [happ .add]
    rfl
  · intro hpos
    rw [happ .sub]
    simp only [counterSub]
    rw [if_neg (by omega)]
  · intro hz
    rw [happ .sub]
    simp only [counterSub]
    rw [if_pos hz]

/-- Claim C3 (witness): concrete instances discharging the positive-count and
zero-count hypotheses. -/
theorem useCounter_spec_witness :
    runCounter ([CounterOp.add] ++ [CounterOp.sub]) = runCounter [CounterOp.add] - 1
    ∧ runCounter (([] : List CounterOp) ++ [CounterOp.sub]) = 0
    ∧ runCounter [CounterOp.sub, CounterOp.sub] = 0 :=
  ⟨(useCounter_spec [CounterOp.add]).2.2.1 (by decide),
   (useCounter_spec []).2.2.2.1 (by decide),
   (useCounter_spec []).2.2.2.2⟩

/-- Claim C5: `clearEventLock` removes every listed identity's lock under the
given kind (it is a total function, so absent locks raise no error), and it is
idempotent: clearing twice with the same arguments equals clearing once. -/
theorem clearEventLock_spec (data : List Nat) (event : EventName) (st : LockState) :
    (∀ id, id ∈ data →
       hasLock (clearEventLock data event st).eventLocks event id = false)
    ∧ clearEventLock data event (clearEventLock data event st)
        = clearEventLock data event st := by
  constructor
  · intro id hid
    exact hasLock_clearEventLock_of_mem data event id st hid
  · simp [clearEventLock, clearLocks_idem]

/-- Claim C5 (witness) at concrete inputs, one with the lock present and one
with it absent. -/
theorem clearEventLock_spec_witness :
    hasLock (clearEventLock [1, 9] .created
        ⟨[(.created, 1)], [], 0⟩).eventLocks .created 1 = false
    ∧ clearEventLock [1, 9] .created
        (clearEventLock [1, 9] .created ⟨[(.created, 1)], [], 0⟩)
      = clearEventLock [1, 9] .created ⟨[(.created, 1)], [], 0⟩ :=
  ⟨(clearEventLock_spec [1, 9] .created ⟨[(.created, 1)], [], 0⟩).1 1 (by decide),
   (clearEventLock_spec [1, 9] .created ⟨[(.created, 1)], [], 0⟩).2⟩

/-- Claim C6: with no lock held for `(eventKind, identity)`, toggling twice in
immediate succession (no timer has fired) leaves no lock for that pair: the
first call sets it, the second clears it. -/
theorem toggleEventLock_twice (event : EventName) (id : Nat) (st : LockState)
    (h : hasLock st.eventLocks event id = false) :
    hasLock (toggleEventLock [id] event
        (toggleEventLock [id] event st)).eventLocks event id = false := by
  rw [toggle_single_unlocked event id st h]
  have hset : hasLock ((event, id) :: st.eventLocks) event id = true :=
    (hasLock_iff _ _ _).mpr (List.mem_cons_self _ _)
  rw [toggle_single_locked event id _ hset]
  exact hasLock_clearEventLock_of_mem [id] event id _ (List.mem_cons_self _ _)

/-- Claim C6 (witness) at a concrete input. -/
theorem toggleEventLock_twice_witness :
    hasLock (toggleEventLock [7] .created
        (toggleEventLock [7] .created ⟨[], [], 0⟩)).eventLocks .created 7 = false :=
  toggleEventLock_twice .created 7 ⟨[], [], 0⟩ (by decide)

/-- Claim C7: a lock armed by `toggleEventLock` (from a state with no pending
timers and no lock on any listed identity) and never cleared manually is still
present at every observation strictly before 250 time units after arming, and
absent at every observation from 250 time units onward: the scheduled clear
never fires early. -/
theorem toggleEventLock_auto_clear (data : List Nat) (event : EventName) (id : Nat)
    (st : LockState) (s : Nat)
    (htm : st.timers = []) (hnd : data.Nodup)
    (hun : ∀ i ∈ data, hasLock st.eventLocks event i = false) (hid : id ∈ data) :
    hasLock (observeAt s (toggleEventLock data event st)).eventLocks event id
      = decide (s < st.now + 250) := by
  have hun2 : ∀ i ∈ data, (event, i) ∉ st.eventLocks :=
    fun i hi => (hasLock_eq_false_iff _ _ _).mp (hun i hi)
  have hclosed := toggleFold_all_unlocked data event data st hnd hun2
  simp only [toggleEventLock]
  rw [hclosed, htm]
  by_cases hlt : s < st.now + 250
  · have hnof : ∀ tm ∈ (([] : List LockTimer)
        ++ data.map (fun _ => (⟨st.now + 250, data, event⟩ : LockTimer))),
        ¬ tm.fire ≤ s := by
      intro tm htmem
      rw [List.nil_append] at htmem
      rcases List.mem_map.mp htmem with ⟨i, _, rfl⟩
      simp only
      omega
    simp only [observeAt]
    rw [foldl_timers_no_fire s _ _ hnof, decide_eq_true hlt]
    apply (hasLock_iff _ _ _).mpr
    apply List.mem_append.mpr
    exact Or.inl (List.mem_reverse.mpr (List.mem_map.mpr ⟨id, hid, rfl⟩))
  · have hge : st.now + 250 ≤ s := by omega
    obtain ⟨i0, rest, rfl⟩ : ∃ i0 rest, data = i0 :: rest := by
      cases data with
      | nil => cases hid
      | cons a b => exact ⟨a, b, rfl⟩
    simp only [observeAt, List.nil_append, List.map_cons, List.foldl_cons]
    rw [if_pos hge, decide_eq_false (by omega)]
    apply (hasLock_eq_false_iff _ _ _).mpr
    intro hmem
    have hsub := foldl_timers_subset s
      (rest.map (fun _ => (⟨st.now + 250, i0 :: rest, event⟩ : LockTimer)))
      (clearLocks (i0 :: rest) event
        (((i0 :: rest).map (fun i => (event, i))).reverse ++ st.eventLocks)) hmem
    exact ((mem_clearLocks _ _ _ _ _).mp hsub).2 ⟨rfl, hid⟩

/-- Claim C7 (witness): a concrete lock observed present at time 100 and gone
at time 250. -/
theorem toggleEventLock_auto_clear_witness :
    hasLock (observeAt 100 (toggleEventLock [3] .created
        ⟨[], [], 0⟩)).eventLocks .created 3 = true
    ∧ hasLock (observeAt 250 (toggleEventLock [3] .created
        ⟨[], [], 0⟩)).eventLocks .created 3 = false := by
  constructor
  · exact (toggleEventLock_auto_clear [3] .created 3 ⟨[], [], 0⟩ 100
      rfl (by decide) (by decide) (by decide)).trans (by decide)
  · exact (toggleEventLock_auto_clear [3] .created 3 ⟨[], [], 0⟩ 250
      rfl (by decide) (by decide) (by decide)).trans (by decide)

/-- Per-kind entry of the module-level `state` table of the queue-promise
module: the current promise (modelled by an id, `none` for `null`), the
`isResolved` flag, and the watched getter name. -/
structure QPState where
  promise : Option Nat
  isResolved : Bool
  getter : String
deriving DecidableEq, Repr

/-- The module-level `state : { [key: string]: QueuePromiseState }` object,
keyed by the four event kinds. -/
structure StateTable where
  created : Option QPState
  updated : Option QPState
  patched : Option QPState
  removed : Option QPState
deriving DecidableEq, Repr

def StateTable.get (t : StateTable) : EventName → Option QPState
  | .created => t.created
  | .updated => t.updated
  | .patched => t.patched
  | .removed => t.removed

def StateTable.set (t : StateTable) (e : EventName) (v : Option QPState) : StateTable :=
  match e with
  | .created => { t with created := v }
  | .updated => { t with updated := v }
  | .patched => { t with patched := v }
  | .removed => { t with removed := v }

/-- A Vue watcher created inside the `new Promise` executor of
`useQueuePromise`; `active` becomes false once `stopWatching()` has run. It
watches `store[state[event].getter]` of the store passed to the creating
call. -/
structure Watcher where
  pid : Nat
  storeId : Nat
  event : EventName
  active : Bool
deriving DecidableEq, Repr

/-- A pending `setTimeout(..., 0)` finalisation scheduled by a watcher
callback that observed a falsy pending indicator. -/
structure FinTask where
  pid : Nat
  event : EventName
deriving DecidableEq, Repr

/-- Global picture of the queue-promise module: the module-level `state`
table, a supply of fresh promise ids, the live watchers, the pending
zero-delay finalisation tasks, and the record of resolved promises with
their values. -/
structure Registry where
  table : StateTable
  nextId : Nat
  watchers : List Watcher
  tasks : List FinTask
  resolved : List (Nat × Bool)
deriving DecidableEq, Repr

/-- The module-level `events` array. -/
def events : List EventName := [.created, .updated, .patched, .removed]

/-- Embedding of `makeState(event)`. -/
def makeState (event : EventName) : QPState :=
  ⟨none, false, makeGetterName event⟩

/-- Embedding of `resetState()`: `events.forEach(e => { delete state[e] })`. -/
def resetState (r : Registry) : Registry :=
  { r with table := events.foldl (fun t e => t.set e none) r.table }

/-- JS truthiness of the watched property's value; `none` models `undefined`
(the property is missing on the store). -/
def truthy : Option Bool → Bool
  | some b => b
  | none => false

/-- Embedding of `useQueuePromise(store, event)`. `obs` is the current value
of `store[state[event].getter]`, observed once immediately by the
`{ immediate: true }` watcher created inside the `new Promise` executor.
Returns the promise (by id) the call returns, and the new module state. -/
def useQueuePromise (storeId : Nat) (event : EventName) (obs : Option Bool)
    (r : Registry) : Nat × Registry :=
  let st0 := (r.table.get event).getD (makeState event)
  let r1 : Registry := { r with table := r.table.set event (some st0) }
  if st0.promise.isNone || st0.isResolved then
    let pid := r1.nextId
    let r2 : Registry :=
      { r1 with
        nextId := pid + 1
        watchers := r1.watchers ++ [⟨pid, storeId, event, true⟩]
        table := r1.table.set event (some { st0 with promise := some pid }) }
    if truthy obs then (pid, r2)
    else (pid, { r2 with tasks := r2.tasks ++ [⟨pid, event⟩] })
  else
    (st0.promise.getD 0, r1)

/-- A change notification of store `storeId`'s watched indicator for `event`
to value `obs`: each still-active watcher of that store and event runs its
callback `if (!isPending) setTimeout(..., 0)`. The watch source reads
`state[event].getter`, so when `state[event]` has been deleted the read
throws and no callback runs. -/
def fireWatchers (storeId : Nat) (event : EventName) (obs : Option Bool)
    (r : Registry) : Registry :=
  if (r.table.get event).isNone then r
  else if truthy obs then r
  else
    { r with
      tasks := r.tasks
        ++ (r.watchers.filter
              (fun w => w.active && w.storeId == storeId && w.event == event)).map
            (fun w => ⟨w.pid, w.event⟩) }

/-- Effect of `stopWatching()` for the watcher of promise `pid`. -/
def deactivate (pid : Nat) (ws : List Watcher) : List Watcher :=
  ws.map (fun w => if w.pid == pid then { w with active := false } else w)

/-- JS promise resolution is single-shot: a second `resolve` call is a no-op. -/
def resolvePromise (pid : Nat) (v : Bool) (res : List (Nat × Bool)) :
    List (Nat × Bool) :=
  match res.lookup pid with
  | some _ => res
  | none => res ++ [(pid, v)]

/-- Embedding of one scheduled `setTimeout` callback of `useQueuePromise`:
`stopWatching(); state[event].isResolved = true; resolve(state[event].isResolved)`.
When `state[event]` no longer exists (deleted by `resetState`), the property
assignment throws a TypeError after `stopWatching` has run, so `resolve` is
never reached and the promise stays pending. -/
def runTask (r : Registry) (t : FinTask) : Registry :=
  match r.table.get t.event with
  | none => { r with watchers := deactivate t.pid r.watchers }
  | some qp =>
    { r with
      watchers := deactivate t.pid r.watchers
      table := r.table.set t.event (some { qp with isResolved := true })
      resolved := resolvePromise t.pid true r.resolved }

/-- End of a turn: every pending zero-delay task runs, in order. -/
def drainTasks (r : Registry) : Registry :=
  r.tasks.foldl runTask { r with tasks := [] }

/-- An interleaving step of the queue-promise module: a `useQueuePromise`
call, an indicator-change notification, or the end of a turn. `obs` is the
value of the watched store property at that moment. -/
inductive QStep where
  | call (storeId : Nat) (event : EventName) (obs : Option Bool)
  | fire (storeId : Nat) (event : EventName) (obs : Option Bool)
  | drain
deriving DecidableEq, Repr

def runStep (r : Registry) : QStep → Registry
  | .call storeId event obs => (useQueuePromise storeId event obs r).2
  | .fire storeId event obs => fireWatchers storeId event obs r
  | .drain => drainTasks r

def runSteps (r : Registry) (steps : List QStep) : Registry :=
  steps.foldl runStep r

/-- Steps that involve no further `useQueuePromise` call: only indicator
changes and turn ends. -/
def QStep.isFireOrDrain : QStep → Bool
  | .call _ _ _ => false
  | _ => true

/-- Steps in which store `storeId`'s pending indicator for `event` is only
ever observed `true` (and no further `useQueuePromise` call occurs). -/
def QStep.observesTrue (storeId : Nat) (event : EventName) : QStep → Bool
  | .call _ _ _ => false
  | .fire s e obs => if s == storeId && e == event then obs == some true else true
  | .drain => true

theorem StateTable.set_get_self (t : StateTable) (e : EventName) :
    t.set e (t.get e) = t := by
  cases e <;> rfl

theorem StateTable.get_set_self (t : StateTable) (e : EventName) (v : Option QPState) :
    (t.set e v).get e = v := by
  cases e <;> rfl

theorem resetState_table (r : Registry) (e : EventName) :
    (resetState r).table.get e = none := by
  cases e <;> rfl

theorem lookup_append_of_none (k : Nat) :
    ∀ (l1 l2 : List (Nat × Bool)), l1.lookup k = none →
      (l1 ++ l2).lookup k = l2.lookup k := by
  intro l1
  induction l1 with
  | nil => intro l2 _; rfl
  | cons a rest ih =>
    intro l2 h
    obtain ⟨k1, v1⟩ := a
    rw [List.cons_append]
    simp only [List.lookup] at h ⊢
    cases hk : (k == k1) <;> simp only [hk] at h ⊢
    · exact ih l2 h
    · exact absurd h (by simp)

theorem lookup_self_append (res : List (Nat × Bool)) (pid : Nat) (v : Bool)
    (h : res.lookup pid = none) : (res ++ [(pid, v)]).lookup pid = some v := by
  rw [lookup_append_of_none pid res _ h]
  simp [List.lookup]

theorem deactivate_inactive (pid : Nat) (ws : List Watcher) :
    ∀ w ∈ deactivate pid ws, w.pid = pid → w.active = false := by
  intro w hw hpid
  rcases List.mem_map.mp hw with ⟨w0, hw0, rfl⟩
  by_cases h : (w0.pid == pid) = true
  · rw [if_pos h]
  · rw [if_neg h] at hpid ⊢
    exact absurd hpid (by simpa using h)

theorem deactivate_owner (pid q sid : Nat) (e : EventName) (ws : List Watcher)
    (h : ∀ w ∈ ws, w.pid = q → w.storeId = sid ∧ w.event = e) :
    ∀ w ∈ deactivate pid ws, w.pid = q → w.storeId = sid ∧ w.event = e := by
  intro w hw hq
  rcases List.mem_map.mp hw with ⟨w0, hw0, rfl⟩
  by_cases hb : (w0.pid == pid) = true
  · rw [if_pos hb] at hq ⊢
    exact h w0 hw0 hq
  · rw [if_neg hb] at hq ⊢
    exact h w0 hw0 hq

theorem deactivate_stays_inactive (pid q : Nat) (ws : List Watcher)
    (h : ∀ w ∈ ws, w.pid = q → w.active = false) :
    ∀ w ∈ deactivate pid ws, w.pid = q → w.active = false := by
  intro w hw hq
  rcases List.mem_map.mp hw with ⟨w0, hw0, rfl⟩
  by_cases hb : (w0.pid == pid) = true
  · rw [if_pos hb]
  · rw [if_neg hb] at hq ⊢
    exact h w0 hw0 hq

theorem runTask_tasks (r : Registry) (t : FinTask) : (runTask r t).tasks = r.tasks := by
  unfold runTask
  cases h : r.table.get t.event <;> rfl

theorem runTask_none_table (r : Registry) (t : FinTask)
    (h : ∀ e, r.table.get e = none) :
    (runTask r t).table = r.table ∧ (runTask r t).resolved = r.resolved := by
  unfold runTask
  rw [h t.event]
  exact ⟨rfl, rfl⟩

theorem foldl_runTask_none :
    ∀ (ts : List FinTask) (r : Registry), (∀ e, r.table.get e = none) →
      (ts.foldl runTask r).table = r.table
      ∧ (ts.foldl runTask r).resolved = r.resolved := by
  intro ts
  induction ts with
  | nil => exact fun r _ => ⟨rfl, rfl⟩
  | cons t rest ih =>
    intro r h
    rw [List.foldl_cons]
    have h1 := runTask_none_table r t h
    have h2 := ih (runTask r t) (fun e => by rw [h1.1]; exact h e)
    exact ⟨h2.1.trans h1.1, h2.2.trans h1.2⟩

theorem runSteps_after_reset (pid : Nat) :
    ∀ (steps : List QStep) (r : Registry),
      (∀ s ∈ steps, s.isFireOrDrain = true) →
      (∀ e, r.table.get e = none) → r.resolved.lookup pid = none →
      (∀ e, (runSteps r steps).table.get e = none)
      ∧ (runSteps r steps).resolved.lookup pid = none := by
  intro steps
  induction steps with
  | nil => exact fun r _ h1 h2 => ⟨h1, h2⟩
  | cons s rest ih =>
    intro r hok h1 h2
    have hrest : ∀ x ∈ rest, x.isFireOrDrain = true :=
      fun x hx => hok x (List.mem_cons_of_mem _ hx)
    have hstep : runSteps r (s :: rest) = runSteps (runStep r s) rest := by
      simp [runSteps, List.foldl_cons]
    rw [hstep]
    cases s with
    | call sid e obs =>
      exact absurd (hok _ (List.mem_cons_self _ _)) (by simp [QStep.isFireOrDrain])
    | fire sid e obs =>
      have hr : runStep r (.fire sid e obs) = r := by
        simp [runStep, fireWatchers, h1 e]
      rw [hr]
      exact ih r hrest h1 h2
    | drain =>
      have h3 := foldl_runTask_none r.tasks { r with tasks := [] } (fun e => h1 e)
      have ht : (runStep r .drain).table = r.table := by
        simpa [runStep, drainTasks] using h3.1
      have hv : (runStep r .drain).resolved = r.resolved := by
        simpa [runStep, drainTasks] using h3.2
      exact ih _ hrest (fun e => by rw [ht]; exact h1 e) (by rw [hv]; exact h2)

/-- Claim C4: while the tracked state for a kind holds a promise that is not
marked resolved, `useQueuePromise` returns that same promise and leaves the
module state untouched (no new promise or watcher); once the state is marked
resolved, the next call returns a newly created promise (a fresh id, distinct
from every previously allocated one). -/
theorem useQueuePromise_reuse (r : Registry) (storeId : Nat) (event : EventName)
    (obs : Option Bool) (qp : QPState) (p : Nat)
    (hqp : r.table.get event = some qp) :
    (qp.promise = some p → qp.isResolved = false →
       useQueuePromise storeId event obs r = (p, r))
    ∧ (qp.isResolved = true →
       (useQueuePromise storeId event obs r).1 = r.nextId
       ∧ (useQueuePromise storeId event obs r).2.nextId = r.nextId + 1
       ∧ (p < r.nextId → (useQueuePromise storeId event obs r).1 ≠ p)) := by
  have hset : r.table.set event (some qp) = r.table := by
    rw [← hqp]
    exact StateTable.set_get_self r.table event
  constructor
  · intro hp hres
    simp [useQueuePromise, hqp, hp, hres, hset]
  · intro hres
    have h1 : (useQueuePromise storeId event obs r).1 = r.nextId := by
      cases htr : truthy obs <;> simp [useQueuePromise, hqp, hres, htr]
    have h2 : (useQueuePromise storeId event obs r).2.nextId = r.nextId + 1 := by
      cases htr : truthy obs <;> simp [useQueuePromise, hqp, hres, htr]
    exact ⟨h1, h2, fun hlt => by rw [h1]; omega⟩

/-- Claim C4 (witness): reuse of an unresolved promise and fresh creation
after resolution, at concrete module states. -/
theorem useQueuePromise_reuse_witness :
    useQueuePromise 0 .created (some true)
        ⟨⟨some ⟨some 5, false, "isCreatePending"⟩, none, none, none⟩, 6, [], [], []⟩
      = (5, ⟨⟨some ⟨some 5, false, "isCreatePending"⟩, none, none, none⟩, 6, [], [], []⟩)
    ∧ (useQueuePromise 0 .created (some true)
        ⟨⟨some ⟨some 5, true, "isCreatePending"⟩, none, none, none⟩, 6, [], [], []⟩).1 = 6
    ∧ (useQueuePromise 0 .created (some true)
        ⟨⟨some ⟨some 5, true, "isCreatePending"⟩, none, none, none⟩, 6, [], [], []⟩).2.nextId = 7
    ∧ (useQueuePromise 0 .created (some true)
        ⟨⟨some ⟨some 5, true, "isCreatePending"⟩, none, none, none⟩, 6, [], [], []⟩).1 ≠ 5 := by
  have h1 := (useQueuePromise_reuse
    ⟨⟨some ⟨some 5, false, "isCreatePending"⟩, none, none, none⟩, 6, [], [], []⟩
    0 .created (some true) ⟨some 5, false, "isCreatePending"⟩ 5 rfl).1 rfl rfl
  have h2 := (useQueuePromise_reuse
    ⟨⟨some ⟨some 5, true, "isCreatePending"⟩, none, none, none⟩, 6, [], [], []⟩
    0 .created (some true) ⟨some 5, true, "isCreatePending"⟩ 5 rfl).2 rfl
  exact ⟨h1, h2.1, h2.2.1, h2.2.2 (by decide)⟩

/-- Claim C8: `resetState` unconditionally deletes the tracked state of all
four operation kinds, and a promise that was unresolved at reset time is
never resolved by any sequence of later indicator changes and turn ends:
the orphaned callbacks find `state[event]` deleted and abort before calling
`resolve`. -/
theorem resetState_spec (r : Registry) (pid : Nat) (steps : List QStep)
    (hres : r.resolved.lookup pid = none)
    (hsteps : ∀ s ∈ steps, s.isFireOrDrain = true) :
    (∀ e, (resetState r).table.get e = none)
    ∧ (runSteps (resetState r) steps).resolved.lookup pid = none := by
  have ht : ∀ e, (resetState r).table.get e = none := resetState_table r
  have hv : (resetState r).resolved = r.resolved := rfl
  exact ⟨ht, (runSteps_after_reset pid steps (resetState r) hsteps ht
    (by rw [hv]; exact hres)).2⟩

/-- Claim C8 (witness): a module state with one in-flight promise and active
watcher; after reset, the indicator going false and the turn ending resolve
nothing, while the whole table is cleared. -/
theorem resetState_spec_witness :
    (resetState ⟨⟨some ⟨some 0, false, "isCreatePending"⟩, none, none, none⟩, 1,
        [⟨0, 0, .created, true⟩], [], []⟩).table.get .created = none
    ∧ (runSteps (resetState ⟨⟨some ⟨some 0, false, "isCreatePending"⟩, none, none, none⟩, 1,
        [⟨0, 0, .created, true⟩], [], []⟩)
        [.fire 0 .created (some false), .drain]).resolved.lookup 0 = none := by
  have h := resetState_spec
    ⟨⟨some ⟨some 0, false, "isCreatePending"⟩, none, none, none⟩, 1,
      [⟨0, 0, .created, true⟩], [], []⟩
    0 [.fire 0 .created (some false), .drain] (by decide) (by decide)
  exact ⟨h.1 .created, h.2⟩

theorem foldl_runTask_tasks :
    ∀ (ts : List FinTask) (r : Registry), (ts.foldl runTask r).tasks = r.tasks := by
  intro ts
  induction ts with
  | nil => exact fun r => rfl
  | cons t rest ih =>
    intro r
    rw [List.foldl_cons, ih, runTask_tasks]

theorem runTask_resolved_other (r : Registry) (t : FinTask) (pid : Nat)
    (hne : t.pid ≠ pid) (h : r.resolved.lookup pid = none) :
    (runTask r t).resolved.lookup pid = none := by
  unfold runTask
  cases hg : r.table.get t.event
  · exact h
  · show (resolvePromise t.pid true r.resolved).lookup pid = none
    unfold resolvePromise
    cases hl : r.resolved.lookup t.pid
    · rw [lookup_append_of_none pid r.resolved _ h]
      have hne2 : (pid == t.pid) = false := by
        simpa using Ne.symm hne
      simp [List.lookup, hne2]
    · exact h

theorem runTask_owner (r : Registry) (t : FinTask) (pid sid : Nat) (event : EventName)
    (h : ∀ w ∈ r.watchers, w.pid = pid → w.storeId = sid ∧ w.event = event) :
    ∀ w ∈ (runTask r t).watchers, w.pid = pid → w.storeId = sid ∧ w.event = event := by
  unfold runTask
  cases hg : r.table.get t.event
  · exact deactivate_owner t.pid pid sid event r.watchers h
  · exact deactivate_owner t.pid pid sid event r.watchers h

theorem foldl_runTask_keeps (pid sid : Nat) (event : EventName) :
    ∀ (ts : List FinTask) (r : Registry),
      (∀ t ∈ ts, t.pid ≠ pid) → r.resolved.lookup pid = none →
      (∀ w ∈ r.watchers, w.pid = pid → w.storeId = sid ∧ w.event = event) →
      (ts.foldl runTask r).resolved.lookup pid = none
      ∧ (∀ w ∈ (ts.foldl runTask r).watchers,
           w.pid = pid → w.storeId = sid ∧ w.event = event) := by
  intro ts
  induction ts with
  | nil => exact fun r _ h2 h3 => ⟨h2, h3⟩
  | cons t rest ih =>
    intro r h1 h2 h3
    rw [List.foldl_cons]
    exact ih (runTask r t)
      (fun x hx => h1 x (List.mem_cons_of_mem _ hx))
      (runTask_resolved_other r t pid (h1 t (List.mem_cons_self _ _)) h2)
      (runTask_owner r t pid sid event h3)

theorem fireWatchers_only_true (pid sid : Nat) (event : EventName)
    (s1 : Nat) (e1 : EventName) (obs : Option Bool) (r : Registry)
    (hok : QStep.observesTrue sid event (.fire s1 e1 obs) = true)
    (h1 : ∀ t ∈ r.tasks, t.pid ≠ pid)
    (h3 : ∀ w ∈ r.watchers, w.pid = pid → w.storeId = sid ∧ w.event = event) :
    (∀ t ∈ (fireWatchers s1 e1 obs r).tasks, t.pid ≠ pid)
    ∧ (fireWatchers s1 e1 obs r).resolved = r.resolved
    ∧ (fireWatchers s1 e1 obs r).watchers = r.watchers := by
  unfold fireWatchers
  by_cases hn : ((r.table.get e1).isNone : Bool) = true
  · rw [if_pos hn]
    exact ⟨h1, rfl, rfl⟩
  · rw [if_neg hn]
    by_cases htr : (truthy obs : Bool) = true
    · rw [if_pos htr]
      exact ⟨h1, rfl, rfl⟩
    · rw [if_neg htr]
      refine ⟨?_, rfl, rfl⟩
      intro t ht
      rcases List.mem_append.mp ht with hold | hnew
      · exact h1 t hold
      · rcases List.mem_map.mp hnew with ⟨w, hwf, rfl⟩
        rcases List.mem_filter.mp hwf with ⟨hw, hcond⟩
        intro hpid
        have hwp := h3 w hw hpid
        have hcond2 : w.active = true ∧ w.storeId = s1 ∧ w.event = e1 := by
          simpa [Bool.and_assoc] using hcond
        have hs : s1 = sid := by rw [← hcond2.2.1, hwp.1]
        have he : e1 = event := by rw [← hcond2.2.2, hwp.2]
        have hobs : obs = some true := by
          have := hok
          simp only [QStep.observesTrue, hs, he] at this
          simpa using this
        rw [hobs] at htr
        exact htr rfl

theorem runSteps_only_true (pid sid : Nat) (event : EventName) :
    ∀ (steps : List QStep) (r : Registry),
      (∀ s ∈ steps, s.observesTrue sid event = true) →
      (∀ t ∈ r.tasks, t.pid ≠ pid) → r.resolved.lookup pid = none →
      (∀ w ∈ r.watchers, w.pid = pid → w.storeId = sid ∧ w.event = event) →
      (runSteps r steps).resolved.lookup pid = none := by
  intro steps
  induction steps with
  | nil => exact fun r _ _ h2 _ => h2
  | cons s rest ih =>
    intro r hok h1 h2 h3
    have hrest : ∀ x ∈ rest, x.observesTrue sid event = true :=
      fun x hx => hok x (List.mem_cons_of_mem _ hx)
    have hstep : runSteps r (s :: rest) = runSteps (runStep r s) rest := by
      simp [runSteps, List.foldl_cons]
    rw [hstep]
    cases s with
    | call s1 e1 obs =>
      exact absurd (hok _ (List.mem_cons_self _ _)) (by simp [QStep.observesTrue])
    | fire s1 e1 obs =>
      have hf := fireWatchers_only_true pid sid event s1 e1 obs r
        (hok _ (List.mem_cons_self _ _)) h1 h3
      exact ih (runStep r (.fire s1 e1 obs)) hrest hf.1
        (by show (fireWatchers s1 e1 obs r).resolved.lookup pid = none
            rw [hf.2.1]; exact h2)
        (by show ∀ w ∈ (fireWatchers s1 e1 obs r).watchers, _
            rw [hf.2.2]; exact h3)
    | drain =>
      have hk := foldl_runTask_keeps pid sid event r.tasks { r with tasks := [] }
        h1 h2 h3
      have htk : (runStep r .drain).tasks = [] := by
        show (drainTasks r).tasks = []
        unfold drainTasks
        rw [foldl_runTask_tasks]
      exact ih (runStep r .drain) hrest
        (fun t ht => absurd (htk ▸ ht) (List.not_mem_nil t))
        hk.1 hk.2

theorem resolve_on_false (r : Registry) (sid : Nat) (event : EventName)
    (pid : Nat) (qp : QPState)
    (htasks : r.tasks = []) (hres : r.resolved.lookup pid = none)
    (hqp : r.table.get event = some qp)
    (hw : r.watchers.filter (fun w => w.active && w.storeId == sid && w.event == event)
          = [⟨pid, sid, event, true⟩]) :
    (drainTasks (fireWatchers sid event (some false) r)).resolved.lookup pid = some true
    ∧ (∀ w ∈ (drainTasks (fireWatchers sid event (some false) r)).watchers,
         w.pid = pid → w.active = false)
    ∧ (drainTasks (fireWatchers sid event (some false) r)).table.get event
        = some { qp with isResolved := true } := by
  have hfw : fireWatchers sid event (some false) r
      = { r with tasks := r.tasks ++ [⟨pid, event⟩] } := by
    simp [fireWatchers, hqp, truthy, hw]
  have hdr : drainTasks (fireWatchers sid event (some false) r)
      = runTask { r with tasks := [] } ⟨pid, event⟩ := by
    rw [hfw]
    simp [drainTasks, htasks]
  have hrt : runTask { r with tasks := ([] : List FinTask) } ⟨pid, event⟩
      = { r with
            tasks := ([] : List FinTask),
            watchers := deactivate pid r.watchers,
            table := r.table.set event (some { qp with isResolved := true }),
            resolved := r.resolved ++ [(pid, true)] } := by
    unfold runTask
    rw [show ({ r with tasks := ([] : List FinTask) } : Registry).table.get
          (⟨pid, event⟩ : FinTask).event = some qp from hqp]
    simp [resolvePromise, hres]
  rw [hdr, hrt]
  refine ⟨lookup_self_append r.resolved pid true hres,
          deactivate_inactive pid r.watchers,
          StateTable.get_set_self r.table event _⟩

theorem resolve_immediate (r : Registry) (sid : Nat) (event : EventName)
    (htasks : r.tasks = []) (hresN : r.resolved.lookup r.nextId = none)
    (hnone : r.table.get event = none) :
    (useQueuePromise sid event (some false) r).1 = r.nextId
    ∧ (drainTasks (useQueuePromise sid event (some false) r).2).resolved.lookup
        r.nextId = some true := by
  have hc : useQueuePromise sid event (some false) r
      = (r.nextId,
         { r with
           table := (r.table.set event (some (makeState event))).set event
             (some { makeState event with promise := some r.nextId }),
           nextId := r.nextId + 1,
           watchers := r.watchers ++ [⟨r.nextId, sid, event, true⟩],
           tasks := r.tasks ++ [⟨r.nextId, event⟩] }) := by
    simp [useQueuePromise, hnone, truthy, makeState]
  rw [hc]
  refine ⟨rfl, ?_⟩
  have hdr : drainTasks
      { r with
        table := (r.table.set event (some (makeState event))).set event
          (some { makeState event with promise := some r.nextId }),
        nextId := r.nextId + 1,
        watchers := r.watchers ++ [⟨r.nextId, sid, event, true⟩],
        tasks := r.tasks ++ [⟨r.nextId, event⟩] }
      = runTask
          { r with
            table := (r.table.set event (some (makeState event))).set event
              (some { makeState event with promise := some r.nextId }),
            nextId := r.nextId + 1,
            watchers := r.watchers ++ [⟨r.nextId, sid, event, true⟩],
            tasks := ([] : List FinTask) } ⟨r.nextId, event⟩ := by
    simp [drainTasks, htasks]
  rw [hdr]
  have hget : (((r.table.set event (some (makeState event))).set event
        (some { makeState event with promise := some r.nextId })) : StateTable).get
        (⟨r.nextId, event⟩ : FinTask).event
      = some { makeState event with promise := some r.nextId } :=
    StateTable.get_set_self _ event _
  unfold runTask
  rw [show (({ r with
        table := (r.table.set event (some (makeState event))).set event
          (some { makeState event with promise := some r.nextId }),
        nextId := r.nextId + 1,
        watchers := r.watchers ++ [⟨r.nextId, sid, event, true⟩],
        tasks := ([] : List FinTask) } : Registry)).table.get
        (⟨r.nextId, event⟩ : FinTask).event
      = some { makeState event with promise := some r.nextId } from hget]
  show (resolvePromise r.nextId true r.resolved).lookup r.nextId = some true
  unfold resolvePromise
  rw [hresN]
  exact lookup_self_append r.resolved r.nextId true hresN

/-- Claim C9: the promise of `useQueuePromise` resolves with the value `true`
the first time the watched pending indicator is observed falsy — after the
zero-delay deferral (the turn end) — including immediately at subscription
time when it is already falsy; at that point the watcher is stopped and the
per-kind state is marked resolved; and it never resolves over any run in
which the indicator has only been observed `true`. -/
theorem useQueuePromise_resolution (r : Registry) (sid : Nat) (event : EventName)
    (pid : Nat) (qp : QPState) (steps : List QStep) :
    ((∀ s ∈ steps, s.observesTrue sid event = true) →
     (∀ t ∈ r.tasks, t.pid ≠ pid) → r.resolved.lookup pid = none →
     (∀ w ∈ r.watchers, w.pid = pid → w.storeId = sid ∧ w.event = event) →
     (runSteps r steps).resolved.lookup pid = none)
    ∧
    (r.tasks = [] → r.resolved.lookup pid = none → r.table.get event = some qp →
     r.watchers.filter (fun w => w.active && w.storeId == sid && w.event == event)
       = [⟨pid, sid, event, true⟩] →
     (drainTasks (fireWatchers sid event (some false) r)).resolved.lookup pid
         = some true
     ∧ (∀ w ∈ (drainTasks (fireWatchers sid event (some false) r)).watchers,
          w.pid = pid → w.active = false)
     ∧ (drainTasks (fireWatchers sid event (some false) r)).table.get event
         = some { qp with isResolved := true })
    ∧
    (r.tasks = [] → r.resolved.lookup r.nextId = none → r.table.get event = none →
     (useQueuePromise sid event (some false) r).1 = r.nextId
     ∧ (drainTasks (useQueuePromise sid event (some false) r).2).resolved.lookup
         r.nextId = some true) := by
  refine ⟨fun hok h1 h2 h3 => runSteps_only_true pid sid event steps r hok h1 h2 h3,
          fun ht hr hq hwf => resolve_on_false r sid event pid qp ht hr hq hwf,
          fun ht hr hn => resolve_immediate r sid event ht hr hn⟩

/-- Claim C9 (witness): a module state with one unresolved promise and its
active watcher. Observing only `true` resolves nothing; observing `false` and
ending the turn resolves the promise with `true`; on a fresh state with the
indicator already falsy, the new promise resolves at the next turn end. -/
theorem useQueuePromise_resolution_witness :
    (runSteps ⟨⟨some ⟨some 0, false, "isCreatePending"⟩, none, none, none⟩, 1,
        [⟨0, 0, .created, true⟩], [], []⟩
        [.fire 0 .created (some true), .drain]).resolved.lookup 0 = none
    ∧ (drainTasks (fireWatchers 0 .created (some false)
        ⟨⟨some ⟨some 0, false, "isCreatePending"⟩, none, none, none⟩, 1,
          [⟨0, 0, .created, true⟩], [], []⟩)).resolved.lookup 0 = some true
    ∧ (useQueuePromise 0 .created (some false)
        ⟨⟨none, none, none, none⟩, 0, [], [], []⟩).1 = 0
    ∧ (drainTasks (useQueuePromise 0 .created (some false)
        ⟨⟨none, none, none, none⟩, 0, [], [], []⟩).2).resolved.lookup 0
        = some true := by
  have hA := (useQueuePromise_resolution
    ⟨⟨some ⟨some 0, false, "isCreatePending"⟩, none, none, none⟩, 1,
      [⟨0, 0, .created, true⟩], [], []⟩
    0 .created 0 ⟨some 0, false, "isCreatePending"⟩
    [.fire 0 .created (some true), .drain]).1
    (by decide) (by decide) rfl (by decide)
  have hB := (useQueuePromise_resolution
    ⟨⟨some ⟨some 0, false, "isCreatePending"⟩, none, none, none⟩, 1,
      [⟨0, 0, .created, true⟩], [], []⟩
    0 .created 0 ⟨some 0, false, "isCreatePending"⟩ []).2.1
    rfl rfl rfl (by decide)
  have hC := (useQueuePromise_resolution
    ⟨⟨none, none, none, none⟩, 0, [], [], []⟩
    0 .created 0 ⟨none, false, "isCreatePending"⟩ []).2.2
    rfl rfl rfl
  exact ⟨hA, hB.1, hC.1, hC.2⟩

/-- Claim C10: the queue-promise state is one module-level table shared by
all callers. With two distinct stores 0 and 1, a call for store 0 creates
promise `p`, a call for store 1 while `p` is unresolved returns the identical
promise and changes nothing; the single watcher watches store 0, so store 1's
indicator going false resolves nothing while store 0's indicator going false
resolves `p`. -/
theorem useQueuePromise_shared_module_state :
    (useQueuePromise 1 .created (some true)
        (useQueuePromise 0 .created (some true)
          ⟨⟨none, none, none, none⟩, 0, [], [], []⟩).2).1
      = (useQueuePromise 0 .created (some true)
          ⟨⟨none, none, none, none⟩, 0, [], [], []⟩).1
    ∧ (useQueuePromise 1 .created (some true)
        (useQueuePromise 0 .created (some true)
          ⟨⟨none, none, none, none⟩, 0, [], [], []⟩).2).2
      = (useQueuePromise 0 .created (some true)
          ⟨⟨none, none, none, none⟩, 0, [], [], []⟩).2
    ∧ (useQueuePromise 0 .created (some true)
        ⟨⟨none, none, none, none⟩, 0, [], [], []⟩).2.watchers
      = [⟨(useQueuePromise 0 .created (some true)
          ⟨⟨none, none, none, none⟩, 0, [], [], []⟩).1, 0, .created, true⟩]
    ∧ (drainTasks (fireWatchers 1 .created (some false)
        (useQueuePromise 0 .created (some true)
          ⟨⟨none, none, none, none⟩, 0, [], [], []⟩).2)).resolved.lookup
        (useQueuePromise 0 .created (some true)
          ⟨⟨none, none, none, none⟩, 0, [], [], []⟩).1 = none
    ∧ (drainTasks (fireWatchers 0 .created (some false)
        (useQueuePromise 0 .created (some true)
          ⟨⟨none, none, none, none⟩, 0, [], [], []⟩).2)).resolved.lookup
        (useQueuePromise 0 .created (some true)
          ⟨⟨none, none, none, none⟩, 0, [], [], []⟩).1 = some true := by
  decide
